import Mathlib

/-!
Verification of the PostgreSQL data-storage backend
(`retryspool-storage-data-postgres`, file `backend.go`).

The database table is modelled as an association list from message
identifiers to records; each operation of `backend.go` is translated into
a Lean function over that table.  Timestamps are abstract `Nat` values
supplied by the caller (standing for `time.Now()`), payload bytes are
`List Nat`, and the Go `int64` size is `Int`.  Database execution errors
(driver failures) are outside the model: the `Exec` calls are modelled on
their non-failing path, while every error the Go code constructs itself
(not-found, closed writer, reader failure wrapping) is represented by a
constructor of `DataError` mirroring the corresponding `fmt.Errorf` site.
-/

namespace RetrySpoolPG

/-- One row of the backing table: columns `data`, `size`, `created`,
`updated` of `backend.go`'s `createTable` schema (`message_id` is the
association-list key). -/
structure Record where
  data : List Nat
  size : Int
  created : Nat
  updated : Nat
deriving DecidableEq, Repr

/-- The backing table: rows keyed by `message_id`. -/
abbrev Table := List (String × Record)

/-- Errors constructed by `backend.go` itself, one constructor per
`fmt.Errorf` site. -/
inductive DataError where
  /-- `failed to read data: %w` in `StoreData`. -/
  | readFailed (underlying : String)
  /-- `data for message %s not found` in `GetDataReader` (the
  `sql.ErrNoRows` branch) and in `DeleteData` (zero rows affected). -/
  | notFound (messageID : String)
  /-- `failed to get data for message %s: %w` in `GetDataReader`
  (driver failure other than `sql.ErrNoRows`). -/
  | getFailed (messageID : String) (underlying : String)
  /-- `failed to store data for message %s: %w` in `StoreData` and
  `postgresDataWriter.Close`. -/
  | storeFailed (messageID : String) (underlying : String)
  /-- `writer is closed` in `postgresDataWriter.Write`. -/
  | writerClosed
  /-- `failed to delete data for message %s: %w` in `DeleteData`. -/
  | deleteFailed (messageID : String) (underlying : String)
deriving DecidableEq, Repr

/-- Look up the row for `id` (SQL `SELECT ... WHERE message_id = $1`
under primary-key semantics: the first matching row). -/
def lookupRow : Table → String → Option Record
  | [], _ => none
  | (k, r) :: rest, id => if k = id then some r else lookupRow rest id

/-- The `DO UPDATE SET data = EXCLUDED.data, size = EXCLUDED.size,
updated = EXCLUDED.updated` branch of the upsert: rewrite the matching
row, leaving `created` untouched. -/
def updateRow (id : String) (bytes : List Nat) (now : Nat) : Table → Table
  | [] => []
  | (k, r) :: rest =>
    if k = id then
      (k, { r with data := bytes, size := Int.ofNat bytes.length, updated := now }) ::
        updateRow id bytes now rest
    else (k, r) :: updateRow id bytes now rest

/-- The upsert statement of `StoreData` / `postgresDataWriter.Close`:
`INSERT ... ON CONFLICT (message_id) DO UPDATE SET data, size, updated`.
On conflict only `data`, `size`, `updated` change; otherwise a fresh row
with `created = updated = now` is inserted. -/
def execUpsert (t : Table) (id : String) (bytes : List Nat) (now : Nat) : Table :=
  match lookupRow t id with
  | some _ => updateRow id bytes now t
  | none => t ++ [(id, ⟨bytes, Int.ofNat bytes.length, now, now⟩)]

/-- `DELETE FROM ... WHERE message_id = $1`: the resulting table and the
number of rows affected. -/
def execDelete : Table → String → Table × Nat
  | [], _ => ([], 0)
  | (k, r) :: rest, id =>
    let (t, n) := execDelete rest id
    if k = id then (t, n + 1) else ((k, r) :: t, n)

/-- `Backend.StoreData`: `io.ReadAll` the payload source (its outcome is
the `Except` argument); on read failure return `(0, wrapped error)`
before any database write; otherwise upsert and return the byte count. -/
def StoreData (t : Table) (id : String) (source : Except String (List Nat))
    (now : Nat) : (Int × Option DataError) × Table :=
  match source with
  | .error e => ((0, some (.readFailed e)), t)
  | .ok bytes => ((Int.ofNat bytes.length, none), execUpsert t id bytes now)

/-- `bytesReadCloser`: a fetched payload served incrementally, with the
read offset. -/
structure BytesReadCloser where
  data : List Nat
  offset : Nat
deriving DecidableEq, Repr

/-- `bytesReadCloser.Read` with a destination buffer of capacity `cap`:
at or past the end return `(no bytes, EOF)`; otherwise copy
`min cap (remaining)` bytes and advance the offset.  The returned `Bool`
is the `io.EOF` flag. -/
def BytesReadCloser.read (brc : BytesReadCloser) (cap : Nat) :
    (List Nat × Bool) × BytesReadCloser :=
  if brc.data.length ≤ brc.offset then (([], true), brc)
  else
    let chunk := (brc.data.drop brc.offset).take cap
    ((chunk, false), ⟨brc.data, brc.offset + chunk.length⟩)

/-- Repeatedly call `read` with buffers of capacity `cap`, concatenating
the chunks until EOF (the loop of `io.ReadAll`), with explicit fuel. -/
def readAllAux (cap : Nat) : Nat → BytesReadCloser → List Nat
  | 0, _ => []
  | fuel + 1, brc =>
    match brc.read cap with
    | ((_, true), _) => []
    | ((chunk, false), brc') => chunk ++ readAllAux cap fuel brc'

/-- Read a `bytesReadCloser` to exhaustion through buffers of capacity
`cap` (as `io.ReadAll` does). -/
def readAll (cap : Nat) (brc : BytesReadCloser) : List Nat :=
  readAllAux cap (brc.data.length + 1) brc

/-- `Backend.GetDataReader`: `SELECT data ... WHERE message_id = $1`;
`sql.ErrNoRows` becomes the not-found error, a present row becomes a
`bytesReadCloser` at offset `0`. -/
def GetDataReader (t : Table) (id : String) : Except DataError BytesReadCloser :=
  match lookupRow t id with
  | none => .error (.notFound id)
  | some r => .ok ⟨r.data, 0⟩

/-- `postgresDataWriter`: the buffering write stream (`backend` and `ctx`
fields carry no model state beyond the target table passed at close). -/
structure PostgresDataWriter where
  messageID : String
  buffer : List Nat
  closed : Bool
deriving DecidableEq, Repr

/-- `Backend.GetDataWriter`: a fresh writer with an empty buffer. -/
def GetDataWriter (id : String) : PostgresDataWriter :=
  ⟨id, [], false⟩

/-- `postgresDataWriter.Write`: fail if closed, otherwise append to the
local buffer and report the chunk length; the table is not touched. -/
def PostgresDataWriter.write (w : PostgresDataWriter) (p : List Nat) :
    (Nat × Option DataError) × PostgresDataWriter :=
  if w.closed then ((0, some .writerClosed), w)
  else ((p.length, none), { w with buffer := w.buffer ++ p })

/-- `postgresDataWriter.Close`: a second close is a no-op; the first
close marks the writer closed, then commits the buffer by the upsert
statement unless the buffer is empty. -/
def PostgresDataWriter.close (w : PostgresDataWriter) (t : Table) (now : Nat) :
    (Option DataError × PostgresDataWriter) × Table :=
  if w.closed then ((none, w), t)
  else
    let w' := { w with closed := true }
    if w.buffer.length = 0 then ((none, w'), t)
    else ((none, w'), execUpsert t w.messageID w.buffer now)

/-- `Backend.DeleteData`: run the delete and fail with the not-found
error when zero rows were affected. -/
def DeleteData (t : Table) (id : String) : Option DataError × Table :=
  let (t', n) := execDelete t id
  if n = 0 then (some (.notFound id), t') else (none, t')

/-- One writer-session operation: a chunk write or a close. -/
inductive WriterOp where
  | write (p : List Nat)
  | close
deriving DecidableEq, Repr

/-- Step a writer session: `Write` leaves the table alone and appends to
the buffer, `Close` runs `postgresDataWriter.Close` against the table. -/
def writerStep (now : Nat) : Table × PostgresDataWriter → WriterOp →
    Table × PostgresDataWriter
  | (t, w), .write p => (t, (w.write p).2)
  | (t, w), .close =>
    let r := w.close t now
    (r.2, r.1.2)

/-- Run a writer session from a starting table and writer. -/
def runWriterOps (now : Nat) (s : Table × PostgresDataWriter)
    (ops : List WriterOp) : Table × PostgresDataWriter :=
  ops.foldl (writerStep now) s

/-- Tables reachable from the empty store by any sequence of
`StoreData`, writer closes (with an arbitrary writer state, covering
every write history) and `DeleteData`. -/
inductive Reachable : Table → Prop
  | init : Reachable []
  | store (t : Table) (id : String) (source : Except String (List Nat)) (now : Nat) :
      Reachable t → Reachable (StoreData t id source now).2
  | writerClose (t : Table) (w : PostgresDataWriter) (now : Nat) :
      Reachable t → Reachable (w.close t now).2
  | delete (t : Table) (id : String) :
      Reachable t → Reachable (DeleteData t id).2

/-- Every row's `size` column equals the byte length of its `data`
column. -/
def SizeConsistent (t : Table) : Prop :=
  ∀ row ∈ t, row.2.size = Int.ofNat row.2.data.length

/-! ### Helper lemmas about the table primitives -/

lemma lookupRow_updateRow_self (t : Table) (id : String) (bytes : List Nat) (now : Nat) :
    lookupRow (updateRow id bytes now t) id =
      (lookupRow t id).map fun r =>
        { r with data := bytes, size := Int.ofNat bytes.length, updated := now } := by
  induction t with
  | nil => rfl
  | cons hd rest ih =>
    obtain ⟨k, r⟩ := hd
    by_cases hk : k = id
    · subst hk
      simp [updateRow, lookupRow]
    · simp [updateRow, lookupRow, hk, ih]

lemma lookupRow_append_self (t : Table) (id : String) (r : Record)
    (h : lookupRow t id = none) :
    lookupRow (t ++ [(id, r)]) id = some r := by
  induction t with
  | nil => simp [lookupRow]
  | cons hd rest ih =>
    obtain ⟨k, r0⟩ := hd
    by_cases hk : k = id
    · simp [lookupRow, hk] at h
    · simp only [lookupRow, hk, if_false] at h
      simpa [lookupRow, hk] using ih h

lemma lookupRow_execUpsert_self (t : Table) (id : String) (bytes : List Nat) (now : Nat) :
    ∃ c, lookupRow (execUpsert t id bytes now) id =
        some ⟨bytes, Int.ofNat bytes.length, c, now⟩ ∧
      (∀ r, lookupRow t id = some r → c = r.created) ∧
      (lookupRow t id = none → c = now) := by
  cases h : lookupRow t id with
  | none =>
    refine ⟨now, ?_, ?_, fun _ => rfl⟩
    · simp [execUpsert, h, lookupRow_append_self t id _ h]
    · intro r hr
      simp at hr
  | some r =>
    refine ⟨r.created, ?_, ?_, ?_⟩
    · simp [execUpsert, h, lookupRow_updateRow_self]
    · intro r0 hr0
      injection hr0 with h2
      rw [h2]
    · intro hn
      simp at hn

lemma execDelete_snd_zero_iff (t : Table) (id : String) :
    (execDelete t id).2 = 0 ↔ lookupRow t id = none := by
  induction t with
  | nil => simp [execDelete, lookupRow]
  | cons hd rest ih =>
    obtain ⟨k, r⟩ := hd
    by_cases hk : k = id
    · simp [execDelete, lookupRow, hk]
    · simpa [execDelete, lookupRow, hk] using ih

lemma lookupRow_execDelete (t : Table) (id : String) :
    lookupRow (execDelete t id).1 id = none := by
  induction t with
  | nil => simp [execDelete, lookupRow]
  | cons hd rest ih =>
    obtain ⟨k, r⟩ := hd
    by_cases hk : k = id
    · simpa [execDelete, hk] using ih
    · simpa [execDelete, lookupRow, hk] using ih

lemma execDelete_zero_fst (t : Table) (id : String)
    (h : (execDelete t id).2 = 0) : (execDelete t id).1 = t := by
  induction t with
  | nil => rfl
  | cons hd rest ih =>
    obtain ⟨k, r⟩ := hd
    by_cases hk : k = id
    · simp [execDelete, hk] at h
    · simp only [execDelete, hk, if_false] at h ⊢
      simpa using ih h

/-! ### Helper lemmas about the read adapter -/

lemma take_append_drop_offset (l : List Nat) (o c : Nat) :
    (l.drop o).take c ++ l.drop (o + ((l.drop o).take c).length) = l.drop o := by
  have hdd : l.drop (o + ((l.drop o).take c).length) =
      (l.drop o).drop (((l.drop o).take c).length) :=
    (List.drop_drop _ _ _).symm
  rcases le_or_lt c (l.drop o).length with hle | hlt
  · rw [hdd, List.length_take, Nat.min_eq_left hle]
    exact List.take_append_drop c (l.drop o)
  · rw [hdd, List.length_take, Nat.min_eq_right hlt.le, List.take_of_length_le hlt.le,
      List.drop_length, List.append_nil]

lemma readAllAux_spec (cap : Nat) (hcap : 1 ≤ cap) :
    ∀ fuel (brc : BytesReadCloser), brc.data.length - brc.offset < fuel →
      readAllAux cap fuel brc = brc.data.drop brc.offset := by
  intro fuel
  induction fuel with
  | zero => intro brc h; omega
  | succ f ih =>
    intro brc h
    by_cases hend : brc.data.length ≤ brc.offset
    · have hrd : brc.read cap = (([], true), brc) := by
        simp [BytesReadCloser.read, hend]
      simp [readAllAux, hrd, List.drop_eq_nil_of_le hend]
    · push_neg at hend
      have hrd : brc.read cap =
          (((brc.data.drop brc.offset).take cap, false),
            ⟨brc.data, brc.offset + ((brc.data.drop brc.offset).take cap).length⟩) := by
        simp [BytesReadCloser.read, Nat.not_le_of_lt hend]
      have hchunk : 1 ≤ ((brc.data.drop brc.offset).take cap).length := by
        rw [List.length_take, List.length_drop]
        omega
      have hfuel : brc.data.length -
          (brc.offset + ((brc.data.drop brc.offset).take cap).length) < f := by
        omega
      have hrec := ih ⟨brc.data, brc.offset + ((brc.data.drop brc.offset).take cap).length⟩
        hfuel
      simp only [readAllAux, hrd, hrec]
      exact take_append_drop_offset brc.data brc.offset cap

lemma readAll_eq (cap : Nat) (hcap : 1 ≤ cap) (data : List Nat) :
    readAll cap ⟨data, 0⟩ = data := by
  have h := readAllAux_spec cap hcap (data.length + 1) ⟨data, 0⟩ (by simp)
  simpa [readAll] using h

/-! ### Helper lemmas about the size invariant -/

lemma sizeConsistent_updateRow (t : Table) (id : String) (bytes : List Nat) (now : Nat)
    (h : SizeConsistent t) : SizeConsistent (updateRow id bytes now t) := by
  induction t with
  | nil => intro row hrow; cases hrow
  | cons hd rest ih =>
    obtain ⟨k, r⟩ := hd
    intro row hrow
    have hrest : SizeConsistent rest := fun q hq => h q (List.mem_cons_of_mem _ hq)
    by_cases hk : k = id
    · simp only [updateRow, hk, if_true] at hrow
      rcases List.mem_cons.mp hrow with heq | hmem
      · subst heq; rfl
      · exact ih hrest row hmem
    · simp only [updateRow, hk, if_false] at hrow
      rcases List.mem_cons.mp hrow with heq | hmem
      · subst heq; exact h (k, r) (List.mem_cons_self _ _)
      · exact ih hrest row hmem

lemma sizeConsistent_execUpsert (t : Table) (id : String) (bytes : List Nat) (now : Nat)
    (h : SizeConsistent t) : SizeConsistent (execUpsert t id bytes now) := by
  unfold execUpsert
  cases lookupRow t id with
  | some r => exact sizeConsistent_updateRow t id bytes now h
  | none =>
    intro row hrow
    rcases List.mem_append.mp hrow with hmem | hmem
    · exact h row hmem
    · simp only [List.mem_singleton] at hmem
      subst hmem
      rfl

lemma sizeConsistent_execDelete (t : Table) (id : String)
    (h : SizeConsistent t) : SizeConsistent (execDelete t id).1 := by
  induction t with
  | nil => intro row hrow; cases hrow
  | cons hd rest ih =>
    obtain ⟨k, r⟩ := hd
    have hrest : SizeConsistent rest := fun q hq => h q (List.mem_cons_of_mem _ hq)
    intro row hrow
    by_cases hk : k = id
    · simp only [execDelete, hk, if_true] at hrow
      exact ih hrest row hrow
    · simp only [execDelete, hk, if_false] at hrow
      rcases List.mem_cons.mp hrow with heq | hmem
      · subst heq; exact h (k, r) (List.mem_cons_self _ _)
      · exact ih hrest row hmem

/-! ### Helper lemmas about the write adapter -/

lemma runWriterOps_writes (now : Nat) (t : Table) (id : String)
    (buf : List Nat) (chunks : List (List Nat)) :
    runWriterOps now (t, ⟨id, buf, false⟩) (chunks.map .write) =
      (t, ⟨id, buf ++ chunks.flatten, false⟩) := by
  induction chunks generalizing buf with
  | nil => simp [runWriterOps]
  | cons c cs ih =>
    have hstep : writerStep now (t, ⟨id, buf, false⟩) (.write c) =
        (t, ⟨id, buf ++ c, false⟩) := by
      simp [writerStep, PostgresDataWriter.write]
    simp only [List.map_cons, runWriterOps, List.foldl_cons] at *
    rw [hstep, ih (buf ++ c)]
    simp

lemma close_open_nonempty (w : PostgresDataWriter) (t : Table) (now : Nat)
    (hcl : w.closed = false) (hb : w.buffer.length ≠ 0) :
    w.close t now =
      ((none, { w with closed := true }), execUpsert t w.messageID w.buffer now) := by
  unfold PostgresDataWriter.close
  rw [hcl, if_neg (by simp), if_neg hb]

/-! ### Claim theorems -/

/-- C1: for every identifier `id` and payload `p`, `StoreData` returns
byte count `len p` with no error, and a subsequent `GetDataReader` on
`id` succeeds with a reader that, read through buffers of any positive
capacity to exhaustion, yields exactly `p`. -/
theorem store_then_fetch_roundtrip (t : Table) (id : String) (p : List Nat)
    (now cap : Nat) (hcap : 1 ≤ cap) :
    (StoreData t id (.ok p) now).1 = (Int.ofNat p.length, none) ∧
    ∃ brc, GetDataReader (StoreData t id (.ok p) now).2 id = .ok brc ∧
      readAll cap brc = p := by
  refine ⟨rfl, ⟨p, 0⟩, ?_, readAll_eq cap hcap p⟩
  obtain ⟨c, hc, -, -⟩ := lookupRow_execUpsert_self t id p now
  simp [StoreData, GetDataReader, hc]

/-- Witness for C1 at a concrete table, identifier, payload and buffer
capacity. -/
theorem store_then_fetch_roundtrip_witness :
    (1 ≤ 4) ∧
    ((StoreData [] "m1" (.ok [104, 105]) 7).1 = (Int.ofNat 2, none) ∧
     ∃ brc, GetDataReader (StoreData [] "m1" (.ok [104, 105]) 7).2 "m1" = .ok brc ∧
       readAll 4 brc = [104, 105]) :=
  ⟨by decide, store_then_fetch_roundtrip [] "m1" [104, 105] 7 4 (by decide)⟩

/-- C2: storing `p1` then `p2` under the same identifier leaves a record
holding exactly `p2` (with its size), `created` equal to the record's
`created` after the first store, and `updated` equal to the second
store's timestamp; fetching retrieves `p2`. -/
theorem store_twice_overwrites_preserving_created (t : Table) (id : String)
    (p1 p2 : List Nat) (now1 now2 : Nat) :
    ∃ r1 r2,
      lookupRow (StoreData t id (.ok p1) now1).2 id = some r1 ∧
      lookupRow (StoreData (StoreData t id (.ok p1) now1).2 id (.ok p2) now2).2 id =
        some r2 ∧
      r2.data = p2 ∧ r2.size = Int.ofNat p2.length ∧
      r2.created = r1.created ∧ r2.updated = now2 ∧
      GetDataReader (StoreData (StoreData t id (.ok p1) now1).2 id (.ok p2) now2).2 id =
        .ok ⟨p2, 0⟩ := by
  obtain ⟨c1, hc1, -, -⟩ := lookupRow_execUpsert_self t id p1 now1
  obtain ⟨c2, hc2, hsome, -⟩ :=
    lookupRow_execUpsert_self (execUpsert t id p1 now1) id p2 now2
  have hcc : c2 = c1 := hsome _ hc1
  refine ⟨⟨p1, Int.ofNat p1.length, c1, now1⟩, ⟨p2, Int.ofNat p2.length, c2, now2⟩,
    ?_, ?_, rfl, rfl, hcc, rfl, ?_⟩
  · simpa [StoreData] using hc1
  · simpa [StoreData] using hc2
  · simp [StoreData, GetDataReader, hc2]

/-- C3: every table reachable from the empty store by `StoreData`,
writer closes and `DeleteData` has every row's `size` equal to the byte
length of its `data`. -/
theorem reachable_size_consistent (t : Table) (h : Reachable t) :
    SizeConsistent t := by
  induction h with
  | init => intro row hrow; cases hrow
  | store t id source now _ ih =>
    cases source with
    | error e => exact ih
    | ok bytes => exact sizeConsistent_execUpsert t id bytes now ih
  | writerClose t w now _ ih =>
    by_cases hcl : w.closed
    · simpa [PostgresDataWriter.close, hcl] using ih
    · by_cases hb : w.buffer.length = 0
      · simpa [PostgresDataWriter.close, hcl, hb] using ih
      · simpa [PostgresDataWriter.close, hcl, hb] using
          sizeConsistent_execUpsert t w.messageID w.buffer now ih
  | delete t id _ ih =>
    by_cases hz : (execDelete t id).2 = 0
    · simpa [DeleteData, hz] using sizeConsistent_execDelete t id ih
    · simpa [DeleteData, hz] using sizeConsistent_execDelete t id ih

/-- Witness for C3 at a concrete reachable table. -/
theorem reachable_size_consistent_witness :
    Reachable (StoreData [] "m1" (.ok [1, 2, 3]) 5).2 ∧
    SizeConsistent (StoreData [] "m1" (.ok [1, 2, 3]) 5).2 :=
  ⟨Reachable.store [] "m1" (.ok [1, 2, 3]) 5 Reachable.init,
   reachable_size_consistent _ (Reachable.store [] "m1" (.ok [1, 2, 3]) 5 Reachable.init)⟩

/-- C4: fetching an identifier with no row fails with the not-found
error, and that error differs from every other failure kind the backend
constructs (driver read/get/store/delete failures, closed writer). -/
theorem fetch_absent_not_found (t : Table) (id : String)
    (h : lookupRow t id = none) :
    GetDataReader t id = .error (.notFound id) ∧
    ∀ mid u, DataError.notFound id ≠ .getFailed mid u ∧
      DataError.notFound id ≠ .storeFailed mid u ∧
      DataError.notFound id ≠ .readFailed u ∧
      DataError.notFound id ≠ .deleteFailed mid u ∧
      DataError.notFound id ≠ .writerClosed := by
  refine ⟨by simp [GetDataReader, h], ?_⟩
  intro mid u
  refine ⟨by simp, by simp, by simp, by simp, by simp⟩

/-- Witness for C4 at a concrete empty table. -/
theorem fetch_absent_not_found_witness :
    lookupRow [] "gone" = none ∧
    (GetDataReader [] "gone" = .error (.notFound "gone") ∧
     ∀ mid u, DataError.notFound "gone" ≠ .getFailed mid u ∧
       DataError.notFound "gone" ≠ .storeFailed mid u ∧
       DataError.notFound "gone" ≠ .readFailed u ∧
       DataError.notFound "gone" ≠ .deleteFailed mid u ∧
       DataError.notFound "gone" ≠ .writerClosed) :=
  ⟨rfl, fetch_absent_not_found [] "gone" rfl⟩

/-- C5: deleting an absent identifier fails with not-found and leaves
the table unchanged; deleting a present identifier succeeds, and a
subsequent fetch of it fails with not-found. -/
theorem delete_semantics (t t' : Table) (id id' : String) (r : Record)
    (habsent : lookupRow t id = none) (hpresent : lookupRow t' id' = some r) :
    DeleteData t id = (some (.notFound id), t) ∧
    (DeleteData t' id').1 = none ∧
    GetDataReader (DeleteData t' id').2 id' = .error (.notFound id') := by
  have hz : (execDelete t id).2 = 0 := (execDelete_snd_zero_iff t id).mpr habsent
  have hnz : (execDelete t' id').2 ≠ 0 := by
    intro h0
    rw [(execDelete_snd_zero_iff t' id').mp h0] at hpresent
    cases hpresent
  refine ⟨?_, by simp [DeleteData, hnz], ?_⟩
  · simp [DeleteData, hz, execDelete_zero_fst t id hz]
  · simp [DeleteData, hnz, GetDataReader, lookupRow_execDelete t' id']

/-- Witness for C5 at concrete tables. -/
theorem delete_semantics_witness :
    lookupRow [] "a" = none ∧
    lookupRow [("b", ⟨[9], 1, 0, 0⟩)] "b" = some ⟨[9], 1, 0, 0⟩ ∧
    (DeleteData [] "a" = (some (.notFound "a"), []) ∧
     (DeleteData [("b", ⟨[9], 1, 0, 0⟩)] "b").1 = none ∧
     GetDataReader (DeleteData [("b", ⟨[9], 1, 0, 0⟩)] "b").2 "b" =
       .error (.notFound "b")) :=
  ⟨rfl, by decide,
   delete_semantics [] [("b", ⟨[9], 1, 0, 0⟩)] "a" "b" ⟨[9], 1, 0, 0⟩ rfl (by decide)⟩

/-- C6: a fresh writer fed any sequence of chunk writes leaves the table
untouched and accumulates exactly the concatenation of the chunks, and
closing it (when the accumulated payload is nonempty) commits that
concatenation through the single upsert statement without error. -/
theorem writer_buffers_then_commits (t : Table) (id : String)
    (chunks : List (List Nat)) (now : Nat) (h : chunks.flatten ≠ []) :
    runWriterOps now (t, GetDataWriter id) (chunks.map .write) =
      (t, ⟨id, chunks.flatten, false⟩) ∧
    (PostgresDataWriter.close ⟨id, chunks.flatten, false⟩ t now).2 =
      execUpsert t id chunks.flatten now ∧
    (PostgresDataWriter.close ⟨id, chunks.flatten, false⟩ t now).1.1 = none := by
  have hlen : chunks.flatten.length ≠ 0 := fun h0 => h (List.length_eq_zero.mp h0)
  have hcl := close_open_nonempty ⟨id, chunks.flatten, false⟩ t now rfl hlen
  refine ⟨?_, ?_, ?_⟩
  · simpa [GetDataWriter] using runWriterOps_writes now t id [] chunks
  · rw [hcl]
  · rw [hcl]

/-- Witness for C6 writing `"abc"` then `"def"`. -/
theorem writer_buffers_then_commits_witness :
    (([[97, 98, 99], [100, 101, 102]] : List (List Nat)).flatten ≠ []) ∧
    (runWriterOps 3 ([], GetDataWriter "w")
        ([[97, 98, 99], [100, 101, 102]].map .write) =
      ([], ⟨"w", [97, 98, 99, 100, 101, 102], false⟩) ∧
     (PostgresDataWriter.close ⟨"w", [97, 98, 99, 100, 101, 102], false⟩ [] 3).2 =
       execUpsert [] "w" [97, 98, 99, 100, 101, 102] 3 ∧
     (PostgresDataWriter.close ⟨"w", [97, 98, 99, 100, 101, 102], false⟩ [] 3).1.1 =
       none) :=
  ⟨by decide, by
    have hmain := writer_buffers_then_commits [] "w"
      [[97, 98, 99], [100, 101, 102]] 3 (by decide)
    simpa using hmain⟩

/-- C7: after any close of a writer, the writer is marked closed, a
subsequent write fails with the writer-closed error and changes nothing,
and a subsequent close is a no-op succeeding on any table. -/
theorem write_after_close_fails_close_idempotent (w : PostgresDataWriter)
    (t t' : Table) (now now' : Nat) (p : List Nat) :
    ((w.close t now).1.2).closed = true ∧
    ((w.close t now).1.2).write p = ((0, some .writerClosed), (w.close t now).1.2) ∧
    ((w.close t now).1.2).close t' now' = ((none, (w.close t now).1.2), t') := by
  by_cases hcl : w.closed
  · simp [PostgresDataWriter.close, PostgresDataWriter.write, hcl]
  · by_cases hb : w.buffer.length = 0 <;>
      simp [PostgresDataWriter.close, PostgresDataWriter.write, hcl, hb]

/-- C8: closing a fresh writer that received no writes succeeds and
returns the table exactly unchanged. -/
theorem close_fresh_writer_no_op (id : String) (t : Table) (now : Nat) :
    (PostgresDataWriter.close (GetDataWriter id) t now).2 = t ∧
    (PostgresDataWriter.close (GetDataWriter id) t now).1.1 = none := by
  simp [PostgresDataWriter.close, GetDataWriter]

/-- C9: storing an empty payload succeeds returning `0`, leaves a record
with empty data and `size = 0`, and a subsequent fetch succeeds with a
reader yielding the empty payload (not the not-found error). -/
theorem store_empty_payload (t : Table) (id : String) (now : Nat) :
    (StoreData t id (.ok []) now).1 = (0, none) ∧
    (∃ r, lookupRow (StoreData t id (.ok []) now).2 id = some r ∧
      r.data = [] ∧ r.size = 0) ∧
    ∃ brc, GetDataReader (StoreData t id (.ok []) now).2 id = .ok brc ∧
      readAll 1 brc = [] := by
  obtain ⟨c, hc, -, -⟩ := lookupRow_execUpsert_self t id [] now
  refine ⟨rfl, ⟨⟨[], Int.ofNat 0, c, now⟩, ?_, rfl, rfl⟩, ⟨[], 0⟩, ?_,
    readAll_eq 1 le_rfl []⟩
  · simpa [StoreData] using hc
  · simp [StoreData, GetDataReader, hc]

/-- C10: `StoreData` on a payload source that fails while being read
returns `0` with the wrapped read error and leaves the table exactly
unchanged (the failure precedes any database write). -/
theorem store_read_failure_leaves_table (t : Table) (id : String)
    (e : String) (now : Nat) :
    StoreData t id (.error e) now = ((0, some (.readFailed e)), t) :=
  rfl

end RetrySpoolPG
